import Mathlib

/-!
Shallow embedding of the plotters region/coordinate composition engine
(crates plotters / plotters-backend) and proofs about its geometry and
drawing protocol.  Pixel coordinates (Rust i32) are modelled as Int,
unsigned pixel sizes (Rust u32/usize) as Nat.
-/

/-- The representation of the rectangle in backend canvas
(src/plotters/src/drawing/area.rs, struct Rect). -/
structure Rect where
  x0 : Int
  y0 : Int
  x1 : Int
  y1 : Int
deriving DecidableEq, Repr, Inhabited

/-- Helper of Rect::split_evenly (area.rs): the idx-th cut point when the
segment [lo, hi] is divided into n parts.  Mirrors
`from + idx as i32 * (size / n) as i32 + idx.min(size % n) as i32`
with `size = (to - from) as usize`. -/
def compute_evenly_split (lo hi : Int) (n idx : Nat) : Int :=
  lo + (idx : Int) * (((hi - lo).toNat / n : Nat) : Int)
    + ((min idx ((hi - lo).toNat % n) : Nat) : Int)

/-- The (ri, ci) cell produced by Rect::split_evenly on an r-row, c-column mesh. -/
def Rect.evenCell (r : Rect) (row col ri ci : Nat) : Rect :=
  { y0 := compute_evenly_split r.y0 r.y1 row ri
    y1 := compute_evenly_split r.y0 r.y1 row (ri + 1)
    x0 := compute_evenly_split r.x0 r.x1 col ci
    x1 := compute_evenly_split r.x0 r.x1 col (ci + 1) }

/-- Rect::split_evenly (area.rs): evenly split the rectangle to a row * col
mesh, row-major (row index outer, column index inner). -/
def Rect.split_evenly (r : Rect) (rc : Nat × Nat) : List Rect :=
  (List.range rc.1).flatMap fun ri =>
    (List.range rc.2).map fun ci => r.evenCell rc.1 rc.2 ri ci

/-- Rect::truncate (area.rs): clamp a point into [x0,x1] x [y0,y1], mirroring
`(p.0.min(self.x1).max(self.x0), p.1.min(self.y1).max(self.y0))`. -/
def Rect.truncate (r : Rect) (p : Int × Int) : Int × Int :=
  (max (min p.1 r.x1) r.x0, max (min p.2 r.y1) r.y0)

/-- Closed-rectangle membership for a pixel point. -/
def Rect.containsPt (r : Rect) (p : Int × Int) : Prop :=
  r.x0 ≤ p.1 ∧ p.1 ≤ r.x1 ∧ r.y0 ≤ p.2 ∧ p.2 ≤ r.y1

instance (r : Rect) (p : Int × Int) : Decidable (r.containsPt p) := by
  unfold Rect.containsPt; infer_instance

/-- Half-open-rectangle membership, used to state exact tiling
(no gaps, no overlaps) of a family of pixel rectangles. -/
def Rect.memHalfOpen (r : Rect) (p : Int × Int) : Prop :=
  r.x0 ≤ p.1 ∧ p.1 < r.x1 ∧ r.y0 ≤ p.2 ∧ p.2 < r.y1

instance (r : Rect) (p : Int × Int) : Decidable (r.memHalfOpen p) := by
  unfold Rect.memHalfOpen; infer_instance

/-- Containment of rectangle b inside rectangle a. -/
def Rect.containsRect (a b : Rect) : Prop :=
  a.x0 ≤ b.x0 ∧ b.x1 ≤ a.x1 ∧ a.y0 ≤ b.y0 ∧ b.y1 ≤ a.y1

instance (a b : Rect) : Decidable (a.containsRect b) := by
  unfold Rect.containsRect; infer_instance

lemma compute_evenly_split_zero (lo hi : Int) (n : Nat) :
    compute_evenly_split lo hi n 0 = lo := by
  simp [compute_evenly_split]

lemma compute_evenly_split_last (lo hi : Int) (n : Nat)
    (h : lo ≤ hi) (hn : 0 < n) :
    compute_evenly_split lo hi n n = hi := by
  unfold compute_evenly_split
  have hrem : (hi - lo).toNat % n < n := Nat.mod_lt _ hn
  have hmin : min n ((hi - lo).toNat % n) = (hi - lo).toNat % n :=
    min_eq_right (le_of_lt hrem)
  rw [hmin]
  have hdm : n * ((hi - lo).toNat / n) + (hi - lo).toNat % n = (hi - lo).toNat :=
    Nat.div_add_mod _ _
  have hto : ((hi - lo).toNat : Int) = hi - lo := Int.toNat_of_nonneg (by omega)
  have : (n : Int) * (((hi - lo).toNat / n : Nat) : Int)
      + (((hi - lo).toNat % n : Nat) : Int) = ((hi - lo).toNat : Int) := by
    exact_mod_cast congrArg (Nat.cast : Nat → Int) hdm
  omega

lemma compute_evenly_split_step (lo hi : Int) (n k : Nat) :
    compute_evenly_split lo hi n (k + 1) =
      compute_evenly_split lo hi n k + (((hi - lo).toNat / n : Nat) : Int)
        + (if k < (hi - lo).toNat % n then 1 else 0) := by
  unfold compute_evenly_split
  have h1 : min (k + 1) ((hi - lo).toNat % n)
      = min k ((hi - lo).toNat % n) + (if k < (hi - lo).toNat % n then 1 else 0) := by
    by_cases h : k < (hi - lo).toNat % n
    · simp only [h, if_pos]
      omega
    · simp only [h, if_neg, not_false_iff]
      omega
  rw [h1]
  push_cast
  by_cases h : k < (hi - lo).toNat % n <;> simp [h] <;> ring

lemma compute_evenly_split_le_succ (lo hi : Int) (n k : Nat) :
    compute_evenly_split lo hi n k ≤ compute_evenly_split lo hi n (k + 1) := by
  rw [compute_evenly_split_step]
  have hq : (0 : Int) ≤ (((hi - lo).toNat / n : Nat) : Int) := Int.ofNat_nonneg _
  by_cases hc : k < (hi - lo).toNat % n
  · rw [if_pos hc]; omega
  · rw [if_neg hc]; omega

lemma compute_evenly_split_mono (lo hi : Int) (n : Nat) {k m : Nat} (h : k ≤ m) :
    compute_evenly_split lo hi n k ≤ compute_evenly_split lo hi n m := by
  induction m with
  | zero => simp_all
  | succ m ih =>
    rcases Nat.le_succ_iff.mp h with h2 | h2
    · exact le_trans (ih h2) (compute_evenly_split_le_succ lo hi n m)
    · subst h2; exact le_refl _

/-- If a sequence of cuts starts at or below x and ends above x, some
consecutive pair of cuts straddles x. -/
lemma exists_segment_hit (g : Nat → Int) (x : Int) :
    ∀ n, g 0 ≤ x → x < g n → ∃ k, k < n ∧ g k ≤ x ∧ x < g (k + 1) := by
  intro n
  induction n with
  | zero => intro h1 h2; omega
  | succ n ih =>
    intro h1 h2
    by_cases h : g n ≤ x
    · exact ⟨n, Nat.lt_succ_self n, h, h2⟩
    · obtain ⟨k, hk, h3, h4⟩ := ih h1 (by omega)
      exact ⟨k, Nat.lt_succ_of_lt hk, h3, h4⟩

/-- For a monotone sequence of cuts, the straddling segment is unique. -/
lemma segment_hit_unique (g : Nat → Int) (mono : ∀ a b, a ≤ b → g a ≤ g b)
    (x : Int) (k k' : Nat) (h1 : g k ≤ x) (h2 : x < g (k + 1))
    (h3 : g k' ≤ x) (h4 : x < g (k' + 1)) : k = k' := by
  rcases lt_trichotomy k k' with h | h | h
  · have := mono (k + 1) k' h
    omega
  · exact h
  · have := mono (k' + 1) k h
    omega

lemma length_flatMap_range {β : Type} (f : Nat → List β) (m : Nat)
    (h : ∀ i, (f i).length = m) :
    ∀ row, ((List.range row).flatMap f).length = row * m := by
  intro row
  induction row with
  | zero => simp
  | succ row ih =>
    rw [List.range_succ, List.flatMap_append, List.length_append, ih]
    simp [h row, Nat.succ_mul]

lemma getElem?_flatMap_range {β : Type} (f : Nat → List β) (m : Nat)
    (h : ∀ i, (f i).length = m) (row i j : Nat) (hi : i < row) (hj : j < m) :
    ((List.range row).flatMap f)[i * m + j]? = (f i)[j]? := by
  induction row with
  | zero => omega
  | succ row ih =>
    rw [List.range_succ, List.flatMap_append]
    by_cases hc : i < row
    · have hlt : i * m + j < ((List.range row).flatMap f).length := by
        rw [length_flatMap_range f m h row]
        calc i * m + j < i * m + m := by omega
          _ = (i + 1) * m := by rw [Nat.succ_mul]
          _ ≤ row * m := Nat.mul_le_mul_right m hc
      rw [List.getElem?_append_left hlt]
      exact ih hc
    · have hieq : i = row := by omega
      subst hieq
      have hlen : ((List.range i).flatMap f).length = i * m :=
        length_flatMap_range f m h i
      rw [List.getElem?_append_right (by omega)]
      rw [hlen, Nat.add_sub_cancel_left]
      simp

/-- Exact-tiling property of Rect::split_evenly, as the claim states it:
row-major order, cells listed at index ri*col+ci, adjacent cells share
edges, every cell is contained in the parent, every half-open point of the
parent belongs to exactly one cell, and widths (resp. heights) follow the
size/n plus one-extra-pixel-for-the-first-(size%n)-segments policy, so two
cells of a row (resp. column) differ by at most one pixel. -/
def SplitEvenlyTiles (r : Rect) (row col : Nat) : Prop :=
  (r.split_evenly (row, col)).length = row * col
  ∧ (∀ ri ci, ri < row → ci < col →
      (r.split_evenly (row, col))[ri * col + ci]? = some (r.evenCell row col ri ci))
  ∧ (∀ ri ci, ri < row → ci + 1 < col →
      (r.evenCell row col ri ci).x1 = (r.evenCell row col ri (ci + 1)).x0)
  ∧ (∀ ri ci, ri + 1 < row → ci < col →
      (r.evenCell row col ri ci).y1 = (r.evenCell row col (ri + 1) ci).y0)
  ∧ (∀ ri ci, ri < row → ci < col → r.containsRect (r.evenCell row col ri ci))
  ∧ (∀ p : Int × Int, r.memHalfOpen p →
      ∃! q : Nat × Nat, q.1 < row ∧ q.2 < col ∧ (r.evenCell row col q.1 q.2).memHalfOpen p)
  ∧ (∀ ri ci, ri < row → ci < col →
      (r.evenCell row col ri ci).x1 - (r.evenCell row col ri ci).x0
        = (((r.x1 - r.x0).toNat / col : Nat) : Int)
          + (if ci < (r.x1 - r.x0).toNat % col then 1 else 0))
  ∧ (∀ ri ci, ri < row → ci < col →
      (r.evenCell row col ri ci).y1 - (r.evenCell row col ri ci).y0
        = (((r.y1 - r.y0).toNat / row : Nat) : Int)
          + (if ri < (r.y1 - r.y0).toNat % row then 1 else 0))
  ∧ (∀ ri ci cj, ri < row → ci < col → cj < col →
      |((r.evenCell row col ri ci).x1 - (r.evenCell row col ri ci).x0)
        - ((r.evenCell row col ri cj).x1 - (r.evenCell row col ri cj).x0)| ≤ 1)
  ∧ (∀ ri rj ci, ri < row → rj < row → ci < col →
      |((r.evenCell row col ri ci).y1 - (r.evenCell row col ri ci).y0)
        - ((r.evenCell row col rj ci).y1 - (r.evenCell row col rj ci).y0)| ≤ 1)

lemma evenCell_width (r : Rect) (row col ri ci : Nat) :
    (r.evenCell row col ri ci).x1 - (r.evenCell row col ri ci).x0
      = (((r.x1 - r.x0).toNat / col : Nat) : Int)
        + (if ci < (r.x1 - r.x0).toNat % col then 1 else 0) := by
  show compute_evenly_split r.x0 r.x1 col (ci + 1)
      - compute_evenly_split r.x0 r.x1 col ci = _
  rw [compute_evenly_split_step]
  ring

lemma evenCell_height (r : Rect) (row col ri ci : Nat) :
    (r.evenCell row col ri ci).y1 - (r.evenCell row col ri ci).y0
      = (((r.y1 - r.y0).toNat / row : Nat) : Int)
        + (if ri < (r.y1 - r.y0).toNat % row then 1 else 0) := by
  show compute_evenly_split r.y0 r.y1 row (ri + 1)
      - compute_evenly_split r.y0 r.y1 row ri = _
  rw [compute_evenly_split_step]
  ring

/-- C1: for every rectangle with x0 <= x1, y0 <= y1 and rows, cols >= 1,
the rows*cols sub-rectangles returned by split_evenly tile the parent
exactly in row-major order (adjacent cells share edges, the union covers
the parent, no gaps or overlaps), and cells of a common row (resp. column)
have widths (resp. heights) differing by at most one pixel, the size % n
remainder pixels going one each to the first size % n segments. -/
theorem splitEvenly_tiles (r : Rect) (row col : Nat)
    (hx : r.x0 ≤ r.x1) (hy : r.y0 ≤ r.y1) (hrow : 0 < row) (hcol : 0 < col) :
    SplitEvenlyTiles r row col := by
  have hxmono : ∀ a b, a ≤ b →
      compute_evenly_split r.x0 r.x1 col a ≤ compute_evenly_split r.x0 r.x1 col b :=
    fun a b hab => compute_evenly_split_mono r.x0 r.x1 col hab
  have hymono : ∀ a b, a ≤ b →
      compute_evenly_split r.y0 r.y1 row a ≤ compute_evenly_split r.y0 r.y1 row b :=
    fun a b hab => compute_evenly_split_mono r.y0 r.y1 row hab
  refine ⟨?_, ?_, ?_, ?_, ?_, ?_, ?_, ?_, ?_, ?_⟩
  · exact length_flatMap_range _ col (fun i => by simp) row
  · intro ri ci hri hci
    rw [Rect.split_evenly,
      getElem?_flatMap_range _ col (fun i => by simp) row ri ci hri hci]
    simp [hci]
  · intro ri ci _ _
    rfl
  · intro ri ci _ _
    rfl
  · intro ri ci hri hci
    refine ⟨?_, ?_, ?_, ?_⟩
    · show r.x0 ≤ compute_evenly_split r.x0 r.x1 col ci
      have := hxmono 0 ci (Nat.zero_le ci)
      rwa [compute_evenly_split_zero] at this
    · show compute_evenly_split r.x0 r.x1 col (ci + 1) ≤ r.x1
      have := hxmono (ci + 1) col hci
      rwa [compute_evenly_split_last r.x0 r.x1 col hx hcol] at this
    · show r.y0 ≤ compute_evenly_split r.y0 r.y1 row ri
      have := hymono 0 ri (Nat.zero_le ri)
      rwa [compute_evenly_split_zero] at this
    · show compute_evenly_split r.y0 r.y1 row (ri + 1) ≤ r.y1
      have := hymono (ri + 1) row hri
      rwa [compute_evenly_split_last r.y0 r.y1 row hy hrow] at this
  · rintro ⟨px, py⟩ ⟨hp1, hp2, hp3, hp4⟩
    obtain ⟨kx, hkx, hkx1, hkx2⟩ :=
      exists_segment_hit (compute_evenly_split r.x0 r.x1 col) px col
        (by rwa [compute_evenly_split_zero])
        (by rwa [compute_evenly_split_last r.x0 r.x1 col hx hcol])
    obtain ⟨ky, hky, hky1, hky2⟩ :=
      exists_segment_hit (compute_evenly_split r.y0 r.y1 row) py row
        (by rwa [compute_evenly_split_zero])
        (by rwa [compute_evenly_split_last r.y0 r.y1 row hy hrow])
    refine ⟨(ky, kx), ⟨hky, hkx, hkx1, hkx2, hky1, hky2⟩, ?_⟩
    rintro ⟨qy, qx⟩ ⟨hq1, hq2, hq3, hq4, hq5, hq6⟩
    have ex : qx = kx :=
      segment_hit_unique _ hxmono px qx kx hq3 hq4 hkx1 hkx2
    have ey : qy = ky :=
      segment_hit_unique _ hymono py qy ky hq5 hq6 hky1 hky2
    simp [ex, ey]
  · intro ri ci _ _
    exact evenCell_width r row col ri ci
  · intro ri ci _ _
    exact evenCell_height r row col ri ci
  · intro ri ci cj _ _ _
    rw [evenCell_width r row col ri ci, evenCell_width r row col ri cj, abs_le]
    by_cases h1 : ci < (r.x1 - r.x0).toNat % col <;>
      by_cases h2 : cj < (r.x1 - r.x0).toNat % col <;>
      simp only [h1, h2, if_true, if_false, if_pos, if_neg, not_false_iff] <;>
      omega
  · intro ri rj ci _ _ _
    rw [evenCell_height r row col ri ci, evenCell_height r row col rj ci, abs_le]
    by_cases h1 : ri < (r.y1 - r.y0).toNat % row <;>
      by_cases h2 : rj < (r.y1 - r.y0).toNat % row <;>
      simp only [h1, h2, if_true, if_false, if_pos, if_neg, not_false_iff] <;>
      omega

/-- Witness for C1: the 902 x 900 rectangle of the source test suite split
into a 3 x 3 mesh, with every hypothesis discharged concretely. -/
theorem splitEvenly_tiles_witness :
    ((0 : Int) ≤ 902 ∧ (0 : Int) ≤ 900 ∧ 0 < 3 ∧ 0 < 3)
      ∧ SplitEvenlyTiles ⟨0, 0, 902, 900⟩ 3 3 :=
  ⟨by decide, splitEvenly_tiles ⟨0, 0, 902, 900⟩ 3 3 (by decide) (by decide)
    (by decide) (by decide)⟩

/-- Modelled from the spec: the trivial shift coordinate system
(src/plotters/src/coord is present only as translate.rs; the Shift type
itself is missing from the sources).  Per the spec it is the identity plus
translation by the rectangle's origin. -/
def Shift : Type := Int × Int

/-- Modelled from the spec: forward translation of the shift coordinate
system, identity plus translation by the stored origin. -/
def Shift.translate (s : Shift) (p : Int × Int) : Int × Int :=
  (p.1 + s.1, p.2 + s.2)

/-- The abstraction of a drawing area (area.rs, struct DrawingArea):
a pixel rectangle plus an attached coordinate-system value. -/
structure DrawingArea (CT : Type) where
  rect : Rect
  coord : CT

/-- DrawingArea::<Shift>::shrink (area.rs), with the size descriptors
already resolved to pixels.  Mirrors
x0 = x1.min(x0 + left_upper.0); y0 = y1.min(y0 + left_upper.1);
x1 = x0.max(x0 + dimension.0); y1 = y0.max(y0 + dimension.1)
and re-anchors the shift coordinate at the new origin. -/
def DrawingArea.shrink (a : DrawingArea Shift) (left_upper dimension : Int × Int) :
    DrawingArea Shift :=
  let x0 := min a.rect.x1 (a.rect.x0 + left_upper.1)
  let y0 := min a.rect.y1 (a.rect.y0 + left_upper.2)
  let x1 := max x0 (x0 + dimension.1)
  let y1 := max y0 (y0 + dimension.2)
  ⟨⟨x0, y0, x1, y1⟩, ((x0, y0) : Shift)⟩

/-- DrawingArea::<Shift>::margin (area.rs), with the size descriptors
already resolved to pixels: plain offset arithmetic on the four bounds,
shift coordinate re-anchored at the new origin. -/
def DrawingArea.margin (a : DrawingArea Shift) (top bottom left right : Int) :
    DrawingArea Shift :=
  ⟨⟨a.rect.x0 + left, a.rect.y0 + top, a.rect.x1 - right, a.rect.y1 - bottom⟩,
    ((a.rect.x0 + left, a.rect.y0 + top) : Shift)⟩

/-- C2 counterexample: on the 100 x 100 area rooted at the origin, shrink
with offset (50,50) and dimension (100,100) produces the rectangle
(50,50)-(150,150), which is not contained in the parent: the requested
offset plus size exceeds the bounds and the lower-right corner is not
clamped. -/
theorem shrink_not_contained :
    ¬ Rect.containsRect ⟨0, 0, 100, 100⟩
      ((DrawingArea.shrink ⟨⟨0, 0, 100, 100⟩, ((0, 0) : Shift)⟩
        (50, 50) (100, 100)).rect) := by
  decide

/-- C2 amended: shrink clamps only the upper-left corner into the parent
(for nonnegative offsets it lies between the parent's corners) and forces a
nonnegative size, but it does not clamp the lower-right corner; the result
is contained in the parent exactly when the clamped origin plus the
nonnegative part of the requested size stays within the parent's bounds. -/
theorem shrink_clamps_origin (a : DrawingArea Shift) (lu dim : Int × Int)
    (hlu1 : 0 ≤ lu.1) (hlu2 : 0 ≤ lu.2)
    (hx : a.rect.x0 ≤ a.rect.x1) (hy : a.rect.y0 ≤ a.rect.y1) :
    (a.rect.x0 ≤ (a.shrink lu dim).rect.x0 ∧ (a.shrink lu dim).rect.x0 ≤ a.rect.x1
      ∧ a.rect.y0 ≤ (a.shrink lu dim).rect.y0 ∧ (a.shrink lu dim).rect.y0 ≤ a.rect.y1)
    ∧ ((a.shrink lu dim).rect.x0 ≤ (a.shrink lu dim).rect.x1
      ∧ (a.shrink lu dim).rect.y0 ≤ (a.shrink lu dim).rect.y1)
    ∧ (a.rect.containsRect (a.shrink lu dim).rect ↔
        ((a.shrink lu dim).rect.x0 + max dim.1 0 ≤ a.rect.x1
          ∧ (a.shrink lu dim).rect.y0 + max dim.2 0 ≤ a.rect.y1)) := by
  simp only [DrawingArea.shrink, Rect.containsRect]
  omega

/-- Witness for C2 (amended): a concrete shrink of the 1000 x 1200 root by
offset (100,100) and size (200,600), as in the source test suite. -/
theorem shrink_clamps_origin_witness :
    ((0 : Int) ≤ 100 ∧ (0 : Int) ≤ 100 ∧ (0 : Int) ≤ 1000 ∧ (0 : Int) ≤ 1200)
      ∧ ((0 : Int) ≤ (DrawingArea.shrink ⟨⟨0, 0, 1000, 1200⟩, ((0, 0) : Shift)⟩
          (100, 100) (200, 600)).rect.x0
        ∧ (DrawingArea.shrink ⟨⟨0, 0, 1000, 1200⟩, ((0, 0) : Shift)⟩
          (100, 100) (200, 600)).rect.x0 ≤ 1000
        ∧ (0 : Int) ≤ (DrawingArea.shrink ⟨⟨0, 0, 1000, 1200⟩, ((0, 0) : Shift)⟩
          (100, 100) (200, 600)).rect.y0
        ∧ (DrawingArea.shrink ⟨⟨0, 0, 1000, 1200⟩, ((0, 0) : Shift)⟩
          (100, 100) (200, 600)).rect.y0 ≤ 1200) :=
  ⟨by decide,
    (shrink_clamps_origin ⟨⟨0, 0, 1000, 1200⟩, ((0, 0) : Shift)⟩
      (100, 100) (200, 600) (by decide) (by decide) (by decide) (by decide)).1⟩

/-- C3 counterexample: margins left=8, right=8 on a width-10 area produce
x0 = 8 > x1 = 2; margin does not clamp to a zero-or-positive size. -/
theorem margin_can_go_negative :
    ¬ ((DrawingArea.margin ⟨⟨0, 0, 10, 10⟩, ((0, 0) : Shift)⟩ 0 0 8 8).rect.x0
      ≤ (DrawingArea.margin ⟨⟨0, 0, 10, 10⟩, ((0, 0) : Shift)⟩ 0 0 8 8).rect.x1) := by
  decide

/-- C3 amended: margin performs unclamped offset arithmetic on the four
bounds; the resulting rectangle satisfies x0 <= x1 exactly when
left + right is at most the parent's width, and y0 <= y1 exactly when
top + bottom is at most the parent's height.  In particular margins within
the available size keep the invariant, while larger ones yield a
negative-size rectangle. -/
theorem margin_size_iff (a : DrawingArea Shift) (top bottom left right : Int) :
    ((a.margin top bottom left right).rect.x0 ≤ (a.margin top bottom left right).rect.x1
      ↔ left + right ≤ a.rect.x1 - a.rect.x0)
    ∧ ((a.margin top bottom left right).rect.y0 ≤ (a.margin top bottom left right).rect.y1
      ↔ top + bottom ≤ a.rect.y1 - a.rect.y0)
    ∧ (a.margin top bottom left right).rect
      = ⟨a.rect.x0 + left, a.rect.y0 + top, a.rect.x1 - right, a.rect.y1 - bottom⟩ := by
  refine ⟨?_, ?_, rfl⟩ <;> simp only [DrawingArea.margin] <;> omega

lemma sum_map_const {α : Type} (l : List α) (n : Nat) :
    (l.map (fun _ => n)).sum = l.length * n := by
  induction l with
  | nil => simp
  | cons a t ih => simp [ih, Nat.succ_mul, Nat.add_comm]

/-- One sorted axis of Rect::split_grid (area.rs): the rectangle's own two
bounds plus the breakpoints offset by the origin, sorted ascending.  Rust's
sort_unstable on i32 and any sorting algorithm produce the same list, the
unique ascending permutation of the input. -/
def grid_axis (a b : Int) (breaks : List Int) : List Int :=
  List.insertionSort (· ≤ ·) ([a, b] ++ breaks.map (fun v => v + a))

/-- Rect::split_grid (area.rs): cartesian product of the consecutive-pair
segments of the two sorted axis lists, row-major (y outer, x inner).  Note
the source sorts but does not deduplicate the cut points. -/
def Rect.split_grid (r : Rect) (x_breaks y_breaks : List Int) : List Rect :=
  let xs := grid_axis r.x0 r.x1 x_breaks
  let ys := grid_axis r.y0 r.y1 y_breaks
  let xsegs := xs.zip xs.tail
  let ysegs := ys.zip ys.tail
  ysegs.flatMap fun p => xsegs.map fun q => ⟨q.1, p.1, q.2, p.2⟩

/-- Removal of adjacent duplicates from a (sorted) list, as Vec::dedup does. -/
def dedup_sorted : List Int → List Int
  | [] => []
  | [a] => [a]
  | a :: b :: rest =>
    if a = b then dedup_sorted (b :: rest) else a :: dedup_sorted (b :: rest)

/-- Modelled from the spec: the claim describes split_grid as deduplicating
the merged breakpoints per axis before taking the cartesian product of the
intervals.  This definition follows those words; the source function
(Rect.split_grid above) omits the deduplication step. -/
def Rect.split_grid_dedup (r : Rect) (x_breaks y_breaks : List Int) : List Rect :=
  let xs := dedup_sorted (grid_axis r.x0 r.x1 x_breaks)
  let ys := dedup_sorted (grid_axis r.y0 r.y1 y_breaks)
  let xsegs := xs.zip xs.tail
  let ysegs := ys.zip ys.tail
  ysegs.flatMap fun p => xsegs.map fun q => ⟨q.1, p.1, q.2, p.2⟩

/-- C4 counterexample: an x breakpoint at offset 0 duplicates the left
bound; the source split_grid keeps the duplicate and emits a degenerate
zero-width cell ahead of the full cell, while the deduplicating description
of the claim yields exactly one cell.  The claim's distinctive
deduplication step is absent from the code. -/
theorem split_grid_no_dedup :
    Rect.split_grid ⟨0, 0, 10, 10⟩ [0] [] = [⟨0, 0, 0, 10⟩, ⟨0, 0, 10, 10⟩]
    ∧ Rect.split_grid_dedup ⟨0, 0, 10, 10⟩ [0] [] = [⟨0, 0, 10, 10⟩]
    ∧ Rect.split_grid ⟨0, 0, 10, 10⟩ [0] []
      ≠ Rect.split_grid_dedup ⟨0, 0, 10, 10⟩ [0] [] := by
  refine ⟨by decide, by decide, by decide⟩

/-- C4 amended: split_grid merges the breakpoints (offsets added to the
rectangle's origin) with the rectangle's own bounds and sorts them per
axis, without deduplication (duplicates yield degenerate intervals), and
returns the cartesian product of consecutive-pair intervals in row-major
order (y outer, x inner); with zero breakpoints on both axes it returns
exactly one rectangle equal to the original. -/
theorem split_grid_sorted_product (r : Rect) (xb yb : List Int)
    (hx : r.x0 ≤ r.x1) (hy : r.y0 ≤ r.y1) :
    r.split_grid [] [] = [r]
    ∧ (r.split_grid xb yb).length = (1 + yb.length) * (1 + xb.length)
    ∧ ∃ xs ys : List Int,
        List.Sorted (· ≤ ·) xs
        ∧ xs.Perm ([r.x0, r.x1] ++ xb.map (fun v => v + r.x0))
        ∧ List.Sorted (· ≤ ·) ys
        ∧ ys.Perm ([r.y0, r.y1] ++ yb.map (fun v => v + r.y0))
        ∧ r.split_grid xb yb
          = (ys.zip ys.tail).flatMap
              fun p => (xs.zip xs.tail).map fun q => ⟨q.1, p.1, q.2, p.2⟩ := by
  refine ⟨?_, ?_, grid_axis r.x0 r.x1 xb, grid_axis r.y0 r.y1 yb,
    List.sorted_insertionSort _ _, List.perm_insertionSort _ _,
    List.sorted_insertionSort _ _, List.perm_insertionSort _ _, rfl⟩
  · have hxs : grid_axis r.x0 r.x1 [] = [r.x0, r.x1] := by
      have hs : List.Sorted (· ≤ ·) [r.x0, r.x1] := by
        simp [List.sorted_cons, hx]
      simpa [grid_axis] using hs.insertionSort_eq
    have hys : grid_axis r.y0 r.y1 [] = [r.y0, r.y1] := by
      have hs : List.Sorted (· ≤ ·) [r.y0, r.y1] := by
        simp [List.sorted_cons, hy]
      simpa [grid_axis] using hs.insertionSort_eq
    simp [Rect.split_grid, hxs, hys]
  · have hlx : (grid_axis r.x0 r.x1 xb).length = 2 + xb.length := by
      rw [grid_axis, List.length_insertionSort]
      simp only [List.length_append, List.length_map, List.length_cons,
        List.length_nil]
    have hly : (grid_axis r.y0 r.y1 yb).length = 2 + yb.length := by
      rw [grid_axis, List.length_insertionSort]
      simp only [List.length_append, List.length_map, List.length_cons,
        List.length_nil]
    have hseg : ∀ (l : List Int), (l.zip l.tail).length = l.length - 1 := by
      intro l
      cases l with
      | nil => simp
      | cons a t => simp [List.length_zip]
    simp only [Rect.split_grid, List.length_flatMap, Function.comp_def,
      List.length_map]
    rw [sum_map_const, hseg, hseg, hlx, hly]
    have e1 : 2 + yb.length - 1 = 1 + yb.length := by omega
    have e2 : 2 + xb.length - 1 = 1 + xb.length := by omega
    rw [e1, e2]

/-- Witness for C4 (amended): the 1024 x 768 canvas of the source test
suite with breakpoints [100, 200] and [100]. -/
theorem split_grid_sorted_product_witness :
    ((0 : Int) ≤ 1024 ∧ (0 : Int) ≤ 768)
      ∧ Rect.split_grid ⟨0, 0, 1024, 768⟩ [] [] = [⟨0, 0, 1024, 768⟩] :=
  ⟨by decide,
    (split_grid_sorted_product ⟨0, 0, 1024, 768⟩ [100, 200] [100]
      (by decide) (by decide)).1⟩

/-- The mocked test backend
(src/plotters/src/drawing/backend_impl/mocked.rs): only the counters that
the lifecycle operations touch are modelled; the per-call checker queues
are pure test plumbing with no effect on the counters. -/
structure MockedBackend where
  width : Nat
  height : Nat
  init_count : Nat
  draw_count : Nat
  num_draw_rect_call : Nat

/-- MockedBackend::new. -/
def MockedBackend.new (width height : Nat) : MockedBackend :=
  ⟨width, height, 0, 0, 0⟩

/-- MockedBackend::ensure_prepared (mocked.rs): unconditionally increments
init_count and returns Ok(()). -/
def MockedBackend.ensure_prepared (s : MockedBackend) : MockedBackend :=
  { s with init_count := s.init_count + 1 }

/-- MockedBackend::present (mocked.rs): resets init_count and draw_count. -/
def MockedBackend.present (s : MockedBackend) : MockedBackend :=
  { s with init_count := 0, draw_count := 0 }

/-- MockedBackend::check_before_draw (mocked.rs). -/
def MockedBackend.check_before_draw (s : MockedBackend) : MockedBackend :=
  { s with draw_count := s.draw_count + 1 }

/-- Counter effect of MockedBackend::draw_rect (mocked.rs). -/
def MockedBackend.draw_rect (s : MockedBackend) : MockedBackend :=
  { s.check_before_draw with
      num_draw_rect_call := s.check_before_draw.num_draw_rect_call + 1 }

/-- DrawingArea::backend_ops (area.rs): every drawing-area operation first
calls backend.ensure_prepared() and then runs the requested backend
operation. -/
def MockedBackend.backend_ops (s : MockedBackend)
    (op : MockedBackend → MockedBackend) : MockedBackend :=
  op s.ensure_prepared

/-- C6 counterexample: on a fresh mocked test backend, two consecutive
ensure_prepared calls with no intervening present leave the prepare
counter at 2, refuting the claim that the prepare count observed by the
test backend increments at most once per frame. -/
theorem ensure_prepared_not_idempotent :
    ¬ ((MockedBackend.new 1024 768).ensure_prepared.ensure_prepared.init_count
      ≤ (MockedBackend.new 1024 768).init_count + 1) := by
  decide

/-- C6 amended: MockedBackend::ensure_prepared increments init_count on
every call, with no already-prepared check, so a second call without an
intervening present increments the count a second time; present resets
the count to zero; and the drawing-area layer invokes ensure_prepared once
before every backend operation. -/
theorem ensure_prepared_counts_calls (s : MockedBackend)
    (op : MockedBackend → MockedBackend) :
    s.ensure_prepared.init_count = s.init_count + 1
    ∧ s.ensure_prepared.ensure_prepared.init_count = s.init_count + 2
    ∧ s.ensure_prepared.draw_count = s.draw_count
    ∧ s.ensure_prepared.num_draw_rect_call = s.num_draw_rect_call
    ∧ s.present.init_count = 0
    ∧ s.present.draw_count = 0
    ∧ s.backend_ops op = op s.ensure_prepared
    ∧ (s.backend_ops MockedBackend.draw_rect).init_count = s.init_count + 1
    ∧ (s.backend_ops MockedBackend.draw_rect).draw_count = s.draw_count + 1 := by
  refine ⟨rfl, rfl, rfl, rfl, rfl, rfl, rfl, rfl, rfl⟩

/-- An estimated text height H, the horizontal anchor position used by
titled, and the vertical padding min(H/2, 5): the layout of
DrawingArea::<Shift>::titled (area.rs). -/
def titled_y_padding (text_h : Nat) : Int :=
  ((min (text_h / 2) 5 : Nat) : Int)

/-- DrawingArea::<Shift>::titled (area.rs): the position handed to
draw_text, (x0 + (x1 - x0) / 2, y0 + y_padding), with the style anchored
at HPos::Center / VPos::Top. -/
def titled_text_pos (r : Rect) (text_h : Nat) : Int × Int :=
  (r.x0 + (r.x1 - r.x0).tdiv 2, r.y0 + titled_y_padding text_h)

/-- DrawingArea::<Shift>::titled (area.rs): the remaining drawing area
returned below the title band. -/
def titled_rect (r : Rect) (text_h : Nat) : Rect :=
  ⟨r.x0, r.y0 + titled_y_padding text_h * 2 + (text_h : Int), r.x1, r.y1⟩

/-- C7: titled returns the sub-region whose upper y bound is the parent's
y0 plus min(H/2,5)*2 + H, with x bounds and lower y bound unchanged, and
draws the title text at the horizontal midpoint of the parent (with a
center anchor in the source) at vertical offset min(H/2,5) below the
parent's y0; the drawn band and the returned region exactly partition the
parent's height. -/
theorem titled_layout (r : Rect) (text_h : Nat) :
    (titled_rect r text_h).y0
      = r.y0 + ((min (text_h / 2) 5 : Nat) : Int) * 2 + (text_h : Int)
    ∧ (titled_rect r text_h).x0 = r.x0
    ∧ (titled_rect r text_h).x1 = r.x1
    ∧ (titled_rect r text_h).y1 = r.y1
    ∧ (titled_text_pos r text_h).1 = r.x0 + (r.x1 - r.x0).tdiv 2
    ∧ (titled_text_pos r text_h).2 = r.y0 + ((min (text_h / 2) 5 : Nat) : Int)
    ∧ (titled_text_pos r text_h).2 - r.y0 ≤ 5
    ∧ (titled_text_pos r text_h).2 + (text_h : Int) ≤ (titled_rect r text_h).y0
    ∧ (titled_rect r text_h).y1 - (titled_rect r text_h).y0
      = (r.y1 - r.y0) - (((min (text_h / 2) 5 : Nat) : Int) * 2 + (text_h : Int)) := by
  refine ⟨rfl, rfl, rfl, rfl, rfl, rfl, ?_, ?_, ?_⟩
  · show r.y0 + titled_y_padding text_h - r.y0 ≤ 5
    have : titled_y_padding text_h ≤ 5 := by
      unfold titled_y_padding
      have : min (text_h / 2) 5 ≤ 5 := min_le_right _ _
      omega
    omega
  · show r.y0 + titled_y_padding text_h + (text_h : Int)
      ≤ r.y0 + titled_y_padding text_h * 2 + (text_h : Int)
    have : 0 ≤ titled_y_padding text_h := Int.ofNat_nonneg _
    omega
  · show r.y1 - (r.y0 + titled_y_padding text_h * 2 + (text_h : Int)) = _
    unfold titled_y_padding
    omega

/-- The candlestick data point element
(src/plotters/src/element/candlestick.rs).  The Y type's PartialOrd bound
is modelled by an explicit partial-comparison function pcmp, as Rust's
partial_cmp may return None for incomparable values. -/
structure CandleStick (X Y S : Type) where
  style : S
  width : Nat
  points : List (X × Y)

/-- CandleStick::new (candlestick.rs): the gain style is chosen exactly on
Some(Ordering::Less); any other comparison outcome selects the loss
style.  The four stored points are (x,open),(x,high),(x,low),(x,close). -/
def CandleStick.new {X Y S : Type} (pcmp : Y → Y → Option Ordering)
    (x : X) (openv high low close : Y) (gain_style loss_style : S)
    (width : Nat) : CandleStick X Y S :=
  { style :=
      match pcmp openv close with
      | some Ordering.lt => gain_style
      | _ => loss_style
    width := width
    points := [(x, openv), (x, high), (x, low), (x, close)] }

/-- Rust partial_cmp on an f64-like type: values are either a finite number
(here an integer number of hundredths, enough for the claim's decimal
prices) or a NaN, and any comparison involving NaN returns None. -/
def float_partial_cmp : Option Int → Option Int → Option Ordering
  | some a, some b =>
    some (if a < b then Ordering.lt else if b < a then Ordering.gt else Ordering.eq)
  | _, _ => none

/-- C8: the candlestick uses the gain style exactly when open < close; for
open > close, open = close, or incomparable values (NaN), it uses the loss
style.  With prices in hundredths, open = 130.06 and close = 129.15
compare as gt, so that candlestick takes the loss style. -/
theorem candlestick_style_rule {X Y S : Type} (pcmp : Y → Y → Option Ordering)
    (x : X) (o h l c : Y) (gain_style loss_style : S) (w : Nat) :
    (pcmp o c = some Ordering.lt →
      (CandleStick.new pcmp x o h l c gain_style loss_style w).style = gain_style)
    ∧ (pcmp o c = some Ordering.gt →
      (CandleStick.new pcmp x o h l c gain_style loss_style w).style = loss_style)
    ∧ (pcmp o c = some Ordering.eq →
      (CandleStick.new pcmp x o h l c gain_style loss_style w).style = loss_style)
    ∧ (pcmp o c = none →
      (CandleStick.new pcmp x o h l c gain_style loss_style w).style = loss_style)
    ∧ (∀ a b : Option Int,
        float_partial_cmp a b = some Ordering.lt ↔
          ∃ av bv : Int, a = some av ∧ b = some bv ∧ av < bv)
    ∧ float_partial_cmp (some 13006) (some 12915) = some Ordering.gt
    ∧ (CandleStick.new pcmp x o h l c gain_style loss_style w).points
      = [(x, o), (x, h), (x, l), (x, c)] := by
  refine ⟨?_, ?_, ?_, ?_, ?_, by decide, rfl⟩
  · intro hcmp
    simp [CandleStick.new, hcmp]
  · intro hcmp
    simp [CandleStick.new, hcmp]
  · intro hcmp
    simp [CandleStick.new, hcmp]
  · intro hcmp
    simp [CandleStick.new, hcmp]
  · intro a b
    cases a with
    | none => simp [float_partial_cmp]
    | some av =>
      cases b with
      | none => simp [float_partial_cmp]
      | some bv =>
        by_cases hab : av < bv
        · simp [float_partial_cmp, hab]
        · by_cases hba : bv < av <;>
            simp [float_partial_cmp, hab, hba]

/-- Witness for C8: the scenario candlestick with open = 130.06,
close = 129.15 (values in hundredths) takes the loss style. -/
theorem candlestick_style_rule_witness :
    float_partial_cmp (some 13006) (some 12915) = some Ordering.gt
    ∧ (CandleStick.new float_partial_cmp (0 : Int) (some 13006) (some 13137)
        (some 12883) (some 12915) (0 : Nat) 1 15).style = 1 :=
  ⟨by decide,
    (candlestick_style_rule float_partial_cmp (0 : Int) (some 13006) (some 13137)
      (some 12883) (some 12915) (0 : Nat) 1 15).2.1 (by decide)⟩

/-- A mapped cuboid vertex: backend pixel coordinate plus integer depth,
the output of BackendCoordAndZ::map (element/mod.rs). -/
abbrev VertexZ : Type := (Int × Int) × Int

/-- A backend drawing primitive emitted by Cuboid::draw
(element/basic_shapes_3d.rs): one filled polygon and one path per face. -/
inductive BackendCall where
  | fillPolygon (pts : List (Int × Int))
  | drawPath (pts : List (Int × Int))
deriving DecidableEq, Repr

/-- Face assembly loop of Cuboid::draw (basic_shapes_3d.rs): for each mask
in [1,2,4], push the face through vertices a, a|mask_a, a|mask_a|mask_b,
a|mask_b and its mask-shifted opposite face. -/
def cuboid_polygon (vert : List VertexZ) : List (List VertexZ) :=
  ([1, 2, 4] : List Nat).flatMap fun mask =>
    let mask_a := if mask = 4 then 1 else mask * 2
    let mask_b := if mask = 1 then 4 else mask / 2
    let a := 0
    let b := a ||| mask_a
    let c := a ||| mask_a ||| mask_b
    let d := a ||| mask_b
    [[vert.getD a default, vert.getD b default,
      vert.getD c default, vert.getD d default],
     [vert.getD (a ||| mask) default, vert.getD (b ||| mask) default,
      vert.getD (c ||| mask) default, vert.getD (d ||| mask) default]]

/-- Sort key of Cuboid::draw: the sum of the four vertex depths of a face
(the source sorts by Reverse of this key). -/
def depth_sum (t : List VertexZ) : Int :=
  (t.getD 0 default).2 + (t.getD 1 default).2
    + (t.getD 2 default).2 + (t.getD 3 default).2

/-- Boolean comparison implementing sort_by_cached_key with a Reverse key:
face a precedes face b when its depth sum is at least b's. -/
def cuboid_face_le (a b : List VertexZ) : Bool :=
  decide (depth_sum b ≤ depth_sum a)

/-- The faces of the cuboid after the stable descending-depth sort. -/
def cuboid_sorted (vert : List VertexZ) : List (List VertexZ) :=
  (cuboid_polygon vert).mergeSort cuboid_face_le

/-- Cuboid::draw (basic_shapes_3d.rs): for each face, in sorted order,
emit fill_polygon over the first four path points and draw_path over the
closed loop (the four corners plus the first corner again). -/
def cuboid_draw (vert : List VertexZ) : List BackendCall :=
  (cuboid_sorted vert).flatMap fun p =>
    let path := p.map Prod.fst ++ [(p.getD 0 default).1]
    [BackendCall.fillPolygon (path.take 4), BackendCall.drawPath path]

lemma cuboid_face_le_trans (a b c : List VertexZ)
    (hab : cuboid_face_le a b) (hbc : cuboid_face_le b c) :
    cuboid_face_le a c := by
  simp only [cuboid_face_le, decide_eq_true_eq] at hab hbc ⊢
  omega

lemma cuboid_face_le_total (a b : List VertexZ) :
    cuboid_face_le a b || cuboid_face_le b a := by
  simp only [cuboid_face_le, Bool.or_eq_true, decide_eq_true_eq]
  omega

/-- C9: drawing a cuboid assembles exactly six faces from the eight mapped
(pixel, depth) vertices, emits them as a permutation of those faces in
weakly descending order of the per-face sum of the four vertex depths, and
each emitted face produces one filled-polygon call over its four corners
followed by one path call over the closed edge loop. -/
theorem cuboid_draw_spec (v0 v1 v2 v3 v4 v5 v6 v7 : VertexZ) :
    cuboid_polygon [v0, v1, v2, v3, v4, v5, v6, v7]
      = [[v0, v2, v6, v4], [v1, v3, v7, v5], [v0, v4, v5, v1],
         [v2, v6, v7, v3], [v0, v1, v3, v2], [v4, v5, v7, v6]]
    ∧ (cuboid_sorted [v0, v1, v2, v3, v4, v5, v6, v7]).Perm
        (cuboid_polygon [v0, v1, v2, v3, v4, v5, v6, v7])
    ∧ (cuboid_sorted [v0, v1, v2, v3, v4, v5, v6, v7]).length = 6
    ∧ List.Chain' (fun a b => depth_sum b ≤ depth_sum a)
        (cuboid_sorted [v0, v1, v2, v3, v4, v5, v6, v7])
    ∧ cuboid_draw [v0, v1, v2, v3, v4, v5, v6, v7]
      = (cuboid_sorted [v0, v1, v2, v3, v4, v5, v6, v7]).flatMap
          fun p => [BackendCall.fillPolygon (p.map Prod.fst),
            BackendCall.drawPath (p.map Prod.fst ++ [(p.getD 0 default).1])] := by
  refine ⟨rfl, List.mergeSort_perm _ _, ?_, ?_, ?_⟩
  · rw [cuboid_sorted, List.length_mergeSort]
    rfl
  · have hp : (cuboid_sorted [v0, v1, v2, v3, v4, v5, v6, v7]).Pairwise
        (fun a b => cuboid_face_le a b = true) :=
      List.sorted_mergeSort cuboid_face_le_trans cuboid_face_le_total _
    have hp2 : (cuboid_sorted [v0, v1, v2, v3, v4, v5, v6, v7]).Pairwise
        (fun a b => depth_sum b ≤ depth_sum a) := by
      refine hp.imp ?_
      intro a b hab
      simpa [cuboid_face_le, decide_eq_true_eq] using hab
    exact hp2.chain'
  · have hlen : ∀ p ∈ cuboid_sorted [v0, v1, v2, v3, v4, v5, v6, v7],
        (p.map Prod.fst).length = 4 := by
      intro p hp
      have hmem : p ∈ cuboid_polygon [v0, v1, v2, v3, v4, v5, v6, v7] :=
        (List.mergeSort_perm _ _).mem_iff.mp hp
      have : p ∈ [[v0, v2, v6, v4], [v1, v3, v7, v5], [v0, v4, v5, v1],
          [v2, v6, v7, v3], [v0, v1, v3, v2], [v4, v5, v7, v6]] := hmem
      simp only [List.mem_cons, List.not_mem_nil, or_false] at this
      rcases this with h | h | h | h | h | h <;> subst h <;> rfl
    rw [cuboid_draw]
    apply List.flatMap_congr
    intro p hp
    have h4 : (p.map Prod.fst).length = 4 := hlen p hp
    have htake : ((p.map Prod.fst) ++ [(p.getD 0 default).1]).take 4
        = p.map Prod.fst := by
      rw [← h4]
      exact List.take_left _ _
    simp only [htake]

/-- BackendCoordOnly::map (element/mod.rs): translate a logical coordinate
and clamp the result into the clipping rectangle. -/
def backend_coord_only_map {L : Type} (translate : L → Int × Int)
    (r : Rect) (p : L) : Int × Int :=
  r.truncate (translate p)

/-- BoxedElement::draw (element/composable.rs): take the first (already
mapped) anchor position and draw the inner element at its own pixel
points offset by that anchor.  The inner drawing routine is abstract: it
receives the translated points exactly as computed, with no further
clamping. -/
def boxed_element_draw {γ : Type} (inner_points : List (Int × Int))
    (inner_draw : List (Int × Int) → γ) (empty : γ)
    (pos : List (Int × Int)) : γ :=
  match pos with
  | [] => empty
  | (x0, y0) :: _ => inner_draw (inner_points.map fun p => (p.1 + x0, p.2 + y0))

/-- ComposedElement::draw (element/composable.rs): take the first anchor
position, draw the first sub-element then the second, each at its own
pixel points offset by the same anchor. -/
def composed_element_draw {γ : Type} (first_points second_points : List (Int × Int))
    (first_draw second_draw : List (Int × Int) → List γ)
    (pos : List (Int × Int)) : List γ :=
  match pos with
  | [] => []
  | (x0, y0) :: _ =>
    first_draw (first_points.map fun p => (p.1 + x0, p.2 + y0))
      ++ second_draw (second_points.map fun p => (p.1 + x0, p.2 + y0))

/-- DrawingArea::draw (area.rs) applied to a BoxedElement: the element's
single anchor point is mapped through BackendCoordOnly::map (translate
then clamp) and handed to BoxedElement::draw. -/
def area_draw_boxed {L γ : Type} (translate : L → Int × Int) (r : Rect)
    (offset : L) (inner_points : List (Int × Int))
    (inner_draw : List (Int × Int) → γ) (empty : γ) : γ :=
  boxed_element_draw inner_points inner_draw empty
    [backend_coord_only_map translate r offset]

/-- DrawingArea::draw (area.rs) applied to a ComposedElement. -/
def area_draw_composed {L γ : Type} (translate : L → Int × Int) (r : Rect)
    (offset : L) (first_points second_points : List (Int × Int))
    (first_draw second_draw : List (Int × Int) → List γ) : List γ :=
  composed_element_draw first_points second_points first_draw second_draw
    [backend_coord_only_map translate r offset]

/-- C10: drawing a composed element maps and clamps the anchor exactly
once; every sub-element receives its points translated by exactly that
mapped anchor with no further clamping (the clamped anchor itself always
lies in the region's rectangle), and for some pixel offsets the positions
emitted for sub-elements lie outside the region's rectangle: with region
(0,0)-(10,10), anchor mapping to the clamped corner (10,10) and an inner
point (5,5), the emitted backend position is (15,15). -/
theorem composable_anchor_mapped_once {L γ : Type}
    (translate : L → Int × Int) (r : Rect) (offset : L)
    (inner_points first_points second_points : List (Int × Int))
    (inner_draw : List (Int × Int) → γ) (empty : γ)
    (first_draw second_draw : List (Int × Int) → List γ) :
    (area_draw_boxed translate r offset inner_points inner_draw empty
      = inner_draw (inner_points.map fun p =>
          (p.1 + (r.truncate (translate offset)).1,
            p.2 + (r.truncate (translate offset)).2)))
    ∧ (area_draw_composed translate r offset first_points second_points
          first_draw second_draw
      = first_draw (first_points.map fun p =>
          (p.1 + (r.truncate (translate offset)).1,
            p.2 + (r.truncate (translate offset)).2))
        ++ second_draw (second_points.map fun p =>
          (p.1 + (r.truncate (translate offset)).1,
            p.2 + (r.truncate (translate offset)).2)))
    ∧ (r.x0 ≤ r.x1 → r.y0 ≤ r.y1 → r.containsPt (r.truncate (translate offset)))
    ∧ (area_draw_boxed (fun p : Int × Int => p) ⟨0, 0, 10, 10⟩
        ((20, 20) : Int × Int) [(5, 5)] (fun ps => ps)
        ([] : List (Int × Int)) = [(15, 15)]
      ∧ ¬ (Rect.mk 0 0 10 10).containsPt (15, 15)) := by
  refine ⟨rfl, rfl, ?_, by decide, by decide⟩
  intro hx hy
  simp only [Rect.truncate, Rect.containsPt]
  constructor
  · omega
  constructor
  · omega
  constructor
  · omega
  · omega

/-- Witness for C10: the clamped anchor of the concrete instance lies in
the region's rectangle. -/
theorem composable_anchor_mapped_once_witness :
    ((0 : Int) ≤ 10 ∧ (0 : Int) ≤ 10)
      ∧ (Rect.mk 0 0 10 10).containsPt
          ((Rect.mk 0 0 10 10).truncate ((fun p : Int × Int => p) (20, 20))) :=
  ⟨by decide,
    (composable_anchor_mapped_once (fun p : Int × Int => p) ⟨0, 0, 10, 10⟩
      ((20, 20) : Int × Int) [(5, 5)] [] []
      (fun ps => ps) ([] : List (Int × Int))
      (fun _ => []) (fun _ => [])).2.2.1 (by decide) (by decide)⟩

/-- DrawingArea::<Shift>::apply_coord_spec (area.rs): keep the rectangle,
attach a new coordinate-system value. -/
def DrawingArea.apply_coord_spec {CT : Type} (a : DrawingArea Shift) (c : CT) :
    DrawingArea CT :=
  ⟨a.rect, c⟩

/-- DrawingArea::dim_in_pixel (area.rs): (x1 - x0, y1 - y0) as u32. -/
def DrawingArea.dim_in_pixel {CT : Type} (a : DrawingArea CT) : Nat × Nat :=
  ((a.rect.x1 - a.rect.x0).toNat, (a.rect.y1 - a.rect.y0).toNat)

/-- The chart context fields used by chart state capture and restore
(src/plotters/src/chart/state.rs).  Modelled from the spec: the
ChartContext type itself lives in chart sources missing from the tree;
per the spec the recorded drawing_area_pos is the rectangle origin of the
chart's plotting drawing area. -/
structure ChartContext (CT : Type) where
  drawing_area : DrawingArea CT
  drawing_area_pos : Int × Int

/-- ChartState (state.rs): snapshot of position, size and coordinate
system. -/
structure ChartState (CT : Type) where
  drawing_area_pos : Int × Int
  drawing_area_size : Nat × Nat
  coord : CT

/-- The From ChartContext for ChartState impl (state.rs, capture). -/
def ChartState.ofContext {CT : Type} (chart : ChartContext CT) : ChartState CT :=
  { drawing_area_pos := chart.drawing_area_pos
    drawing_area_size := chart.drawing_area.dim_in_pixel
    coord := chart.drawing_area.coord }

/-- ChartState::restore (state.rs): shrink a clone of the given root area
to the recorded position and size, then re-attach the recorded coordinate
system. -/
def ChartState.restore {CT : Type} (s : ChartState CT) (area : DrawingArea Shift) :
    ChartContext CT :=
  let a := area.shrink s.drawing_area_pos
    ((s.drawing_area_size.1 : Int), (s.drawing_area_size.2 : Int))
  { drawing_area := a.apply_coord_spec s.coord
    drawing_area_pos := s.drawing_area_pos }

/-- C5: capturing a chart state from a chart context and restoring it onto
an equivalent backend-bound root area (rectangle (0,0)-(W,H) containing
the original drawing area, shift coordinate) reproduces the original pixel
rectangle exactly and re-attaches the very same coordinate-system value,
so any forward translation yields the same pixel output for every logical
point. -/
theorem chart_state_roundtrip {CT L : Type} (translate : CT → L → Int × Int)
    (ctx : ChartContext CT) (root : DrawingArea Shift) (W H : Int)
    (hroot : root.rect = ⟨0, 0, W, H⟩)
    (hpos : ctx.drawing_area_pos
      = (ctx.drawing_area.rect.x0, ctx.drawing_area.rect.y0))
    (h0x : 0 ≤ ctx.drawing_area.rect.x0)
    (h0y : 0 ≤ ctx.drawing_area.rect.y0)
    (hx : ctx.drawing_area.rect.x0 ≤ ctx.drawing_area.rect.x1)
    (hy : ctx.drawing_area.rect.y0 ≤ ctx.drawing_area.rect.y1)
    (hxW : ctx.drawing_area.rect.x1 ≤ W)
    (hyH : ctx.drawing_area.rect.y1 ≤ H) :
    ((ChartState.ofContext ctx).restore root).drawing_area.rect
      = ctx.drawing_area.rect
    ∧ ((ChartState.ofContext ctx).restore root).drawing_area.coord
      = ctx.drawing_area.coord
    ∧ ((ChartState.ofContext ctx).restore root).drawing_area_pos
      = ctx.drawing_area_pos
    ∧ ∀ p : L,
        translate (((ChartState.ofContext ctx).restore root).drawing_area.coord) p
          = translate ctx.drawing_area.coord p := by
  refine ⟨?_, rfl, rfl, fun p => rfl⟩
  simp only [ChartState.restore, ChartState.ofContext, DrawingArea.shrink,
    DrawingArea.apply_coord_spec, DrawingArea.dim_in_pixel, hroot, hpos]
  cases hrect : ctx.drawing_area.rect with
  | mk a b c d =>
    rw [hrect] at hx hy h0x h0y hxW hyH
    simp only at hx hy h0x h0y hxW hyH ⊢
    congr 1 <;> omega

/-- Witness for C5: a concrete context whose drawing area is
(10,20)-(110,220) with an attached shift value, restored onto the
1024 x 768 root. -/
theorem chart_state_roundtrip_witness :
    ((⟨⟨⟨10, 20, 110, 220⟩, ((3, 4) : Shift)⟩, (10, 20)⟩ : ChartContext Shift).drawing_area_pos
      = (10, 20))
    ∧ ((ChartState.ofContext
        (⟨⟨⟨10, 20, 110, 220⟩, ((3, 4) : Shift)⟩, (10, 20)⟩ : ChartContext Shift)).restore
          ⟨⟨0, 0, 1024, 768⟩, ((0, 0) : Shift)⟩).drawing_area.rect
      = ⟨10, 20, 110, 220⟩
    ∧ Shift.translate
        (((ChartState.ofContext
          (⟨⟨⟨10, 20, 110, 220⟩, ((3, 4) : Shift)⟩, (10, 20)⟩ : ChartContext Shift)).restore
            ⟨⟨0, 0, 1024, 768⟩, ((0, 0) : Shift)⟩).drawing_area.coord) (7, 9)
      = Shift.translate ((3, 4) : Shift) (7, 9) :=
  ⟨rfl,
    (chart_state_roundtrip Shift.translate
      (⟨⟨⟨10, 20, 110, 220⟩, ((3, 4) : Shift)⟩, (10, 20)⟩ : ChartContext Shift)
      ⟨⟨0, 0, 1024, 768⟩, ((0, 0) : Shift)⟩ 1024 768 rfl rfl
      (by decide) (by decide) (by decide) (by decide) (by decide) (by decide)).1,
    (chart_state_roundtrip Shift.translate
      (⟨⟨⟨10, 20, 110, 220⟩, ((3, 4) : Shift)⟩, (10, 20)⟩ : ChartContext Shift)
      ⟨⟨0, 0, 1024, 768⟩, ((0, 0) : Shift)⟩ 1024 768 rfl rfl
      (by decide) (by decide) (by decide) (by decide) (by decide) (by decide)).2.2.2 (7, 9)⟩
